import Mathlib

/-!
# Verification of the spec-kit subagent orchestrator core

Shallow embedding of the orchestration subsystem found under
`docker/tools/.config/scripts/tools/orchestrator/` (files `config.py`,
`orchestrator.py`, `executors/docker.py`, `executors/file_ops.py`),
together with theorems settling the frozen claims about it.

Modelling conventions:
* Python enums `TaskType` / `TaskStatus` become inductive types.
* `TaskResult` / `SubagentTask` dataclasses become structures; the
  untyped `result`/`payload` `Any` fields become small sum types covering
  the shapes the modelled executors actually construct and read.
  `timeout_seconds` / `execution_time_ms` are Python floats used only as
  opaque data (never compared or added in the claims); they are carried
  as `Nat`.
* An executor's `async execute` is modelled as a function from the task
  to an outcome: it either returns a `TaskResult`, raises an exception
  (carrying the Python exception class, since `except` clauses select on
  it), or fails to settle within `task.timeout_seconds`
  (`asyncio.wait_for` expiry).
* `self.results : dict[str, TaskResult]` becomes an association list with
  Python-dict insertion semantics (update in place, append when fresh).
* `asyncio.gather(..., return_exceptions=True)` over a wave becomes a
  `List.map`: the gathered coroutines are independent, each item is that
  task's returned value or its escaped exception, indexed positionally.
* Traces additionally record which task ids had their executor's
  `execute` invoked, which `(key, result)` pairs were written to
  `self.results`, and which task ids were cancelled for unmet
  dependencies; these observers change nothing in the computation.
-/

/-- Python enum `TaskType` (config.py). -/
inductive TaskType where
  | validation | diagnostics | batch_edit | research | file_search
  | parallel_grep | docker_run | upsert | downsert | gpu_inference
  | registry_sync
deriving DecidableEq, Repr

/-- `str(task_type)` as Python renders an enum member. -/
def TaskType.str : TaskType → String
  | .validation => "TaskType.VALIDATION"
  | .diagnostics => "TaskType.DIAGNOSTICS"
  | .batch_edit => "TaskType.BATCH_EDIT"
  | .research => "TaskType.RESEARCH"
  | .file_search => "TaskType.FILE_SEARCH"
  | .parallel_grep => "TaskType.PARALLEL_GREP"
  | .docker_run => "TaskType.DOCKER_RUN"
  | .upsert => "TaskType.UPSERT"
  | .downsert => "TaskType.DOWNSERT"
  | .gpu_inference => "TaskType.GPU_INFERENCE"
  | .registry_sync => "TaskType.REGISTRY_SYNC"

/-- Python enum `TaskStatus` (config.py). -/
inductive TaskStatus where
  | pending | running | completed | failed | timeout | cancelled
deriving DecidableEq, Repr

/-- Per-item outcome dict `{"target": ..., "action": ...}` returned by an
upsert function (`file_ops.py`); `size_bytes` is dropped as no claim and no
control flow reads it. -/
structure UpsertRes where
  target : String
  action : String
deriving DecidableEq, Repr

/-- Aggregate `summary` dict built by `UpsertExecutor.execute`. -/
structure UpsertSummary where
  total : Nat
  succeeded : Nat
  created : Nat
  updated : Nat
deriving DecidableEq, Repr

/-- One element of the `results["images"]` list built by
`RegistrySyncExecutor.execute`: a bare image name (the `list` action) or a
`{"image": ..., "status": ...}` dict (the `pull`/`push` actions). -/
inductive RegImage where
  | name (s : String)
  | synced (image : String) (status : String)
deriving DecidableEq, Repr

/-- Shapes of the untyped `TaskResult.result` payload that the modelled
executors construct. -/
inductive ResultValue where
  | upsert (items : List UpsertRes) (summary : UpsertSummary)
  | registry (action : String) (images : List RegImage)
deriving DecidableEq, Repr

/-- Dataclass `TaskResult` (config.py). `execution_time_ms` (a float of
wall-clock time) is carried as data but never computed with. -/
structure TaskResult where
  task_id : String
  task_type : TaskType
  status : TaskStatus
  result : Option ResultValue := none
  error : Option String := none
  execution_time_ms : Nat := 0
  parallel_calls : Nat := 0
deriving DecidableEq, Repr

/-- Upsert payload items `{"target": ..., "data": ...}`; the opaque `data`
value is carried as a string token (only handed to the upsert function). -/
structure UpsertItem where
  target : String
  data : String
deriving DecidableEq, Repr

/-- Shapes of the untyped `SubagentTask.payload` that the modelled
executors read; `other` stands for any payload the orchestrator itself
never inspects. -/
inductive Payload where
  | registry (action : String) (images : List String)
  | upsertItems (items : List UpsertItem)
  | other (token : String)
deriving DecidableEq, Repr

/-- Dataclass `SubagentTask` (config.py). -/
structure SubagentTask where
  task_id : String
  task_type : TaskType
  payload : Payload
  timeout_seconds : Nat := 30
  max_retries : Nat := 3
  priority : Int := 0
  dependencies : List String := []
deriving DecidableEq, Repr

/-- Python exception classes that the orchestrator's `except` clauses
select on; `otherError` is any exception matching none of the named
classes (e.g. `KeyError`). -/
inductive ExcType where
  | osError | valueError | runtimeError | otherError
deriving DecidableEq, Repr

/-- A raised exception: its class and its `str(e)` text. -/
structure Exc where
  ty : ExcType
  msg : String
deriving DecidableEq, Repr

/-- Outcome of awaiting `executor.execute(task)` under
`asyncio.wait_for(..., timeout=task.timeout_seconds)`: the coroutine
returns a result, raises, or does not settle within the bound. -/
inductive ExecOutcome where
  | ok (r : TaskResult)
  | raises (e : Exc)
  | timesOut
deriving DecidableEq, Repr

/-- A registered executor (`executors/base.py`): `validate_task` plus the
behaviour of `execute` on each task, modelled extensionally. -/
structure Executor where
  validate_task : SubagentTask → Bool
  execute : SubagentTask → ExecOutcome

/-- The orchestrator's executor registry `self.executors`. -/
abbrev Executors := TaskType → Option Executor

/-- `self.results : dict[str, TaskResult]`, as an association list in
insertion order. -/
abbrev Dict := List (String × TaskResult)

/-- Python `d.get(k)` / `k in d`: first (unique) binding of the key. -/
def Dict.get? (m : Dict) (k : String) : Option TaskResult :=
  (List.find? (fun p => p.1 == k) m).map (·.2)

/-- Python `d[k] = v`: update in place when the key exists, append
otherwise (dict insertion-order semantics). -/
def Dict.insert (m : Dict) (k : String) (v : TaskResult) : Dict :=
  if List.any m (fun p => p.1 == k) then
    List.map (fun p => if p.1 == k then (k, v) else p) m
  else m ++ [(k, v)]

/-- The default used by `self.results.get(dep_id, TaskResult("",
TaskType.VALIDATION, TaskStatus.PENDING))` in `execute_batch`. -/
def pendingDefault : TaskResult :=
  { task_id := "", task_type := .validation, status := .pending }

/-- Which exception classes the `except (OSError, ValueError,
RuntimeError)` clause of `_execute_task` catches. -/
def caughtByDispatch : ExcType → Bool
  | .osError => true
  | .valueError => true
  | .runtimeError => true
  | .otherError => false

/-- Result of one `_execute_task` call: either a returned `TaskResult` or
an exception that escaped the method. -/
inductive DispatchOutcome where
  | result (r : TaskResult)
  | exc (e : Exc)
deriving DecidableEq, Repr

/-- `_execute_task` outcome plus whether `executor.execute` was entered. -/
structure DispatchRes where
  outcome : DispatchOutcome
  invoked : Bool
deriving DecidableEq, Repr

/-- `SubagentOrchestrator._execute_task` (orchestrator.py, lines 136-167):
missing executor synthesizes a Failed result; `asyncio.wait_for` expiry
synthesizes a TIMEOUT result; `OSError`/`ValueError`/`RuntimeError`
escaping the executor synthesize a Failed result with the exception text;
any other exception class escapes the method. -/
def executeTask (ex : Executors) (task : SubagentTask) : DispatchRes :=
  match ex task.task_type with
  | none =>
      { outcome := .result
          { task_id := task.task_id, task_type := task.task_type,
            status := .failed,
            error := some ("No executor for task type: " ++ task.task_type.str) },
        invoked := false }
  | some e =>
      match e.execute task with
      | .ok r => { outcome := .result r, invoked := true }
      | .timesOut =>
          { outcome := .result
              { task_id := task.task_id, task_type := task.task_type,
                status := .timeout,
                error := some ("Task timed out after " ++
                  toString task.timeout_seconds ++ "s") },
            invoked := true }
      | .raises exc =>
          if caughtByDispatch exc.ty then
            { outcome := .result
                { task_id := task.task_id, task_type := task.task_type,
                  status := .failed, error := some exc.msg },
              invoked := true }
          else { outcome := .exc exc, invoked := true }

/-- The Failed `TaskResult` that `execute_batch` synthesizes when
`asyncio.gather(..., return_exceptions=True)` hands back an exception for
an independent task. -/
def failedFromExc (t : SubagentTask) (e : Exc) : TaskResult :=
  { task_id := t.task_id, task_type := t.task_type,
    status := .failed, error := some e.msg }

/-- The value stored in `results`/`self.results` for one independent task:
`_execute_task`'s return, or the gathered exception turned into a Failed
result. -/
def indepResult (ex : Executors) (t : SubagentTask) : TaskResult :=
  match (executeTask ex t).outcome with
  | .result r => r
  | .exc e => failedFromExc t e

/-- The task ids contributed to the invocation trace by one dispatch. -/
def invokedIds (ex : Executors) (t : SubagentTask) : List String :=
  if (executeTask ex t).invoked then [t.task_id] else []

/-- Trace of the independent-task phase of `execute_batch`. -/
structure IndepTrace where
  results : List TaskResult
  m : Dict
  invoked : List String
  recorded : List (String × TaskResult)
deriving Repr

/-- One wave: `asyncio.gather` over a slice of at most `max_parallel`
tasks, each gathered item fixed up to a `TaskResult` and written to
`self.results` under the slice task's id, in slice order. -/
def runWave (ex : Executors) (m : Dict) (batch : List SubagentTask) : IndepTrace :=
  { results := batch.map (indepResult ex),
    m := batch.foldl (fun acc t => acc.insert t.task_id (indepResult ex t)) m,
    invoked := batch.flatMap (invokedIds ex),
    recorded := batch.map (fun t => (t.task_id, indepResult ex t)) }

/-- The `for i in range(0, len(independent_tasks), max_parallel)` loop of
`execute_batch`: waves of `mp` tasks, strictly sequential. (With `mp = 0`
the Python `range` call raises `ValueError`; all theorems assume
`0 < mp`, and this definition returns the empty trace there.) -/
def runIndependent (ex : Executors) (mp : Nat) (m : Dict) :
    List SubagentTask → IndepTrace
  | [] => { results := [], m := m, invoked := [], recorded := [] }
  | t :: ts =>
      if _h : mp = 0 then { results := [], m := m, invoked := [], recorded := [] }
      else
        let wave := runWave ex m ((t :: ts).take mp)
        let rest := runIndependent ex mp wave.m ((t :: ts).drop mp)
        { results := wave.results ++ rest.results,
          m := rest.m,
          invoked := wave.invoked ++ rest.invoked,
          recorded := wave.recorded ++ rest.recorded }
termination_by ts => ts.length
decreasing_by
  simp only [List.length_drop, List.length_cons]
  omega

/-- `all(self.results.get(dep_id, TaskResult("", VALIDATION,
PENDING)).status == COMPLETED for dep_id in task.dependencies)`. -/
def depsSatisfied (m : Dict) (t : SubagentTask) : Bool :=
  t.dependencies.all fun dep =>
    ((m.get? dep).getD pendingDefault).status == .completed

/-- The Cancelled result synthesized for a dependent task whose
dependencies are not satisfied. -/
def cancelledResult (t : SubagentTask) : TaskResult :=
  { task_id := t.task_id, task_type := t.task_type,
    status := .cancelled, error := some "Dependencies not satisfied" }

/-- Trace of the dependent-task phase: the returned results when the loop
completes (`Except.error` when an executor exception escapes the loop and
hence `execute_batch`), the final `self.results`, and the observers. -/
structure DepTrace where
  ret : Except Exc (List TaskResult)
  m : Dict
  invoked : List String
  recorded : List (String × TaskResult)
  cancelledUnmet : List String
deriving Repr

/-- The `for task in dependent_tasks` loop of `execute_batch`: each task is
gated on `depsSatisfied`; satisfied tasks are dispatched by
`_execute_task` and recorded in `self.results`; unsatisfied tasks get a
synthesized Cancelled result appended to the local list only (not written
to `self.results`). An exception escaping `_execute_task` aborts the loop,
discarding the local results list but keeping `self.results` writes made
so far. -/
def runDependent (ex : Executors) (m : Dict) :
    List SubagentTask → DepTrace
  | [] => { ret := .ok [], m := m, invoked := [], recorded := [],
            cancelledUnmet := [] }
  | t :: ts =>
      if depsSatisfied m t then
        match executeTask ex t with
        | { outcome := .result r, invoked := inv } =>
            let rest := runDependent ex (m.insert t.task_id r) ts
            { ret := rest.ret.map (r :: ·),
              m := rest.m,
              invoked := (if inv then [t.task_id] else []) ++ rest.invoked,
              recorded := (t.task_id, r) :: rest.recorded,
              cancelledUnmet := rest.cancelledUnmet }
        | { outcome := .exc e, invoked := inv } =>
            { ret := .error e, m := m,
              invoked := if inv then [t.task_id] else [],
              recorded := [], cancelledUnmet := [] }
      else
        let rest := runDependent ex m ts
        { ret := rest.ret.map (cancelledResult t :: ·),
          m := rest.m,
          invoked := rest.invoked,
          recorded := rest.recorded,
          cancelledUnmet := t.task_id :: rest.cancelledUnmet }

/-- Orchestrator instance state: the executor registry, the retained
results map, and the task queue fed by `submit`. -/
structure OrchState where
  executors : Executors
  results : Dict
  task_queue : List SubagentTask

/-- Full trace of one `execute_batch` call. -/
structure BatchTrace where
  ret : Except Exc (List TaskResult)
  st : OrchState
  invoked : List String
  recorded : List (String × TaskResult)
  cancelledUnmet : List String

/-- `SubagentOrchestrator.execute_batch` (orchestrator.py, lines 72-134):
partition by empty/non-empty dependency list, run independent tasks in
waves of `mp`, then walk dependent tasks sequentially with dependency
gating, and return wave results followed by dependent results. -/
def executeBatch (mp : Nat) (st : OrchState) (tasks : List SubagentTask) :
    BatchTrace :=
  let indep := tasks.filter (fun t => t.dependencies.isEmpty)
  let dep := tasks.filter (fun t => !t.dependencies.isEmpty)
  let itr := runIndependent st.executors mp st.results indep
  let dtr := runDependent st.executors itr.m dep
  { ret := dtr.ret.map (itr.results ++ ·),
    st := { st with results := dtr.m },
    invoked := itr.invoked ++ dtr.invoked,
    recorded := itr.recorded ++ dtr.recorded,
    cancelledUnmet := dtr.cancelledUnmet }

/-- `SubagentOrchestrator.submit` (orchestrator.py, lines 55-70): raise
`ValueError` when no executor is registered for the task type or when the
executor's `validate_task` rejects the task; otherwise put the task on
`self.task_queue` and return its id. -/
def submit (st : OrchState) (task : SubagentTask) :
    Except String (String × OrchState) :=
  match st.executors task.task_type with
  | none => .error ("No executor registered for task type: " ++
      task.task_type.str)
  | some e =>
      if e.validate_task task then
        .ok (task.task_id, { st with task_queue := st.task_queue ++ [task] })
      else
        .error ("Invalid task payload for type: " ++ task.task_type.str)

/-- The numeric fields of the `summary` block computed by
`SubagentOrchestrator.generate_report` (orchestrator.py, lines 169-207);
the float fields (`success_rate`, times, efficiency) are not modelled as
no claim computes with them. -/
structure ReportSummary where
  total_tasks : Nat
  completed : Nat
  failed : Nat
  total_parallel_calls : Nat
deriving DecidableEq, Repr

/-- `generate_report`'s summary: counts over `self.results.values()`. -/
def generateReport (st : OrchState) : ReportSummary :=
  { total_tasks := st.results.length,
    completed := (st.results.map (·.2)).countP (fun r => r.status == .completed),
    failed := (st.results.map (·.2)).countP (fun r => r.status == .failed),
    total_parallel_calls :=
      ((st.results.map (·.2)).map (·.parallel_calls)).sum }

/-! ## Configuration loader (`config.py`) -/

/-- A YAML/JSON-like value as `yaml.safe_load` produces it; numbers are
rationals (covering Python ints and the exact decimal floats appearing in
the default config). -/
inductive CVal where
  | str (s : String)
  | num (q : ℚ)
  | bool (b : Bool)
  | dict (entries : List (String × CVal))
  | list (elems : List CVal)

/-- Mapping lookup, Python `d.get(k)` on a loaded YAML mapping. -/
def cget (entries : List (String × CVal)) (k : String) : Option CVal :=
  (List.find? (fun p => p.1 == k) entries).map (·.2)

/-- `SubagentConfig._get_defaults` (config.py): the hardcoded fallback
configuration used when the config file does not exist. -/
def configDefaults : List (String × CVal) :=
  [("performance_targets", .dict
      [("max_parallel_agents", .num 8),
       ("target_utilization", .num (4/5)),
       ("safety_overhead", .num (1/20)),
       ("effective_utilization", .num (3/4)),
       ("timeout_seconds", .num 30),
       ("retry_attempts", .num 3),
       ("batch_size", .num 10)]),
   ("tracing", .dict [("enabled", .bool false)]),
   ("metrics", .dict [("enabled", .bool false)])]

/-- `SubagentConfig.validate` (config.py, lines 138-156): requires the key
`performance_targets`, requires its value to be a mapping, and requires
that mapping to contain `max_parallel_agents` and `timeout_seconds`;
raises `ValueError` (here: `Except.error`) otherwise. -/
def configValidate (config : List (String × CVal)) : Except String Unit :=
  match cget config "performance_targets" with
  | none => .error "Missing required config key: performance_targets"
  | some v =>
      match v with
      | .dict perf =>
          if (cget perf "max_parallel_agents").isNone then
            .error "Missing required performance target: max_parallel_agents"
          else if (cget perf "timeout_seconds").isNone then
            .error "Missing required performance target: timeout_seconds"
          else .ok ()
      | _ => .error "performance_targets must be a dictionary"

/-- The state of the configuration source when `SubagentConfig.load`
opens it: the file is absent, the YAML text does not parse
(`yaml.safe_load` raises, uncaught), or it parses to `None`/a mapping. -/
inductive YamlSrc where
  | absent
  | unparseable (msg : String)
  | mapping (v : Option (List (String × CVal)))

/-- `SubagentConfig.load` (config.py, lines 113-136): return the cached
config when non-empty; otherwise an absent file yields the hardcoded
defaults, an unparseable file propagates the parse error, and a parsed
file (`None` coerced to `{}` by `or {}`) is validated — a validation
failure propagates as `ValueError` to the caller. -/
def configLoad (cached : List (String × CVal)) (src : YamlSrc) :
    Except String (List (String × CVal)) :=
  if !cached.isEmpty then .ok cached
  else
    match src with
    | .absent => .ok configDefaults
    | .unparseable msg => .error msg
    | .mapping v =>
        let loaded := v.getD []
        match configValidate loaded with
        | .ok _ => .ok loaded
        | .error e => .error e

/-! ## Registry sync executor (`executors/docker.py`) -/

/-- Outcome of one `subprocess.run(cmd, ...)` call: the process finishes
with captured stdout and a return code, the `timeout=` bound expires
(`TimeoutExpired`, a `SubprocessError`), or the invocation itself fails
with `OSError`. -/
inductive ProcOutcome where
  | completes (stdout : String) (returncode : Int)
  | timesOutProc
  | osError (msg : String)

/-- `pat` is an initial segment of `txt` (character lists). -/
def leadsWith : List Char → List Char → Bool
  | [], _ => true
  | _ :: _, [] => false
  | c :: cs, d :: ds => c == d && leadsWith cs ds

/-- `pat` occurs as a contiguous segment of `txt` (character lists). -/
def occursIn : List Char → List Char → Bool
  | pat, [] => pat.isEmpty
  | pat, t :: ts => leadsWith pat (t :: ts) || occursIn pat ts

/-- Python's `sub in s` substring test. -/
def strContains (s sub : String) : Bool :=
  occursIn sub.data s.data

/-- Image-name resolution in the `pull` branch:
`f"{self.registry_url}/{image}" if "/" not in image else image`. -/
def fullImageName (registryUrl image : String) : String :=
  if strContains image "/" then image else registryUrl ++ "/" ++ image

/-- One iteration of the `pull`/`push` loops: `subprocess.run(cmd,
check=True, ...)` raises `CalledProcessError` on a nonzero exit and
`TimeoutExpired` on expiry — both `SubprocessError`, caught and recorded
as a per-image `"failed"` entry; an `OSError` is not caught there and
escapes the executor. -/
def syncImageStep (run : List String → ProcOutcome) (verb : String)
    (okStatus : String) (image : String) : Except Exc RegImage :=
  match run ["docker", verb, image] with
  | .completes _ rc =>
      .ok (.synced image (if rc == 0 then okStatus else "failed"))
  | .timesOutProc => .ok (.synced image "failed")
  | .osError msg => .error ⟨.osError, msg⟩

/-- The per-image loop of the `pull`/`push` branches: images are processed
left to right, each independently; only an escaping exception aborts. -/
def syncLoop (step : String → Except Exc RegImage) :
    List String → Except Exc (List RegImage)
  | [] => .ok []
  | i :: is =>
      match step i with
      | .ok r => (syncLoop step is).map (r :: ·)
      | .error e => .error e

/-- `RegistrySyncExecutor.execute` (executors/docker.py, lines 256-320),
parametrized by the subprocess behaviour `run`. The `list` action queries
local images and filters by registry host or project substring (catching
`SubprocessError`/`OSError` into a Failed result); `pull`/`push` iterate
per image and always aggregate to a Completed result; any other action
falls through to the final Completed result with no images processed. A
non-mapping payload raises (`.get` on it fails). -/
def registrySyncExecute (registryUrl : String)
    (run : List String → ProcOutcome) (task : SubagentTask) : ExecOutcome :=
  match task.payload with
  | .registry action images =>
      if action == "list" then
        match run ["docker", "images", "--format",
            "\x7b\x7b.Repository\x7d\x7d:\x7b\x7b.Tag\x7d\x7d"] with
        | .completes stdout _ =>
            let registry_images :=
              (stdout.trim.splitOn "\n").filter fun img =>
                strContains img registryUrl || strContains img "semantic-kernel"
            .ok { task_id := task.task_id, task_type := task.task_type,
                  status := .completed,
                  result := some (.registry action (registry_images.map .name)) }
        | .timesOutProc =>
            .ok { task_id := task.task_id, task_type := task.task_type,
                  status := .failed, error := some "TimeoutExpired" }
        | .osError msg =>
            .ok { task_id := task.task_id, task_type := task.task_type,
                  status := .failed, error := some msg }
      else if action == "pull" then
        match syncLoop
            (fun img => syncImageStep run "pull" "pulled"
              (fullImageName registryUrl img)) images with
        | .ok imgs =>
            .ok { task_id := task.task_id, task_type := task.task_type,
                  status := .completed,
                  result := some (.registry action imgs) }
        | .error e => .raises e
      else if action == "push" then
        match syncLoop (fun img => syncImageStep run "push" "pushed" img)
            images with
        | .ok imgs =>
            .ok { task_id := task.task_id, task_type := task.task_type,
                  status := .completed,
                  result := some (.registry action imgs) }
        | .error e => .raises e
      else
        .ok { task_id := task.task_id, task_type := task.task_type,
              status := .completed, result := some (.registry action []) }
  | _ => .raises ⟨.otherError, "AttributeError"⟩

/-! ## Upsert executor (`executors/file_ops.py`) -/

/-- Outcome of one call to the (injectable) upsert function on an item's
`target`/`data`. -/
inductive UpsertCall where
  | ok (r : UpsertRes)
  | raises (e : Exc)

/-- The per-item error message `f"Upsert '{item['target']}' failed: {e}"`. -/
def upsertFailMsg (target msg : String) : String :=
  "Upsert \x27" ++ target ++ "\x27 failed: " ++ msg

/-- The `for future in as_completed(...)` loop of
`UpsertExecutor.execute`: each settled item contributes its result, or —
when `future.result()` re-raises an `OSError`/`ValueError`/`RuntimeError`
— a formatted entry on the error list; any other exception class
propagates out of `execute`, aborting the loop. -/
def upsertLoop (fn : String → String → UpsertCall) :
    List UpsertItem → Except Exc (List UpsertRes × List String)
  | [] => .ok ([], [])
  | it :: rest =>
      match fn it.target it.data with
      | .ok r => (upsertLoop fn rest).map fun p => (r :: p.1, p.2)
      | .raises e =>
          if caughtByDispatch e.ty then
            (upsertLoop fn rest).map fun p =>
              (p.1, upsertFailMsg it.target e.msg :: p.2)
          else .error e

/-- `UpsertExecutor.execute` (executors/file_ops.py, lines 53-95),
parametrized by the upsert function `fn` and by `order`, the sequence in
which `as_completed` yields the futures (some permutation of the payload
items). Aggregates per-item outcomes into one result: status Failed iff
any error was recorded, the error string the `"; "`-join of the per-item
messages, the summary counting totals/succeeded/created/updated, and
`parallel_calls` the payload fan-out count. A payload that is not an
items list raises (`payload["items"]` fails). -/
def upsertExecute (fn : String → String → UpsertCall)
    (task : SubagentTask) (order : List UpsertItem) : ExecOutcome :=
  match task.payload with
  | .upsertItems items =>
      match upsertLoop fn order with
      | .error e => .raises e
      | .ok (results, errors) =>
          .ok { task_id := task.task_id, task_type := task.task_type,
                status := if errors.isEmpty then .completed else .failed,
                result := some (.upsert results
                  { total := items.length,
                    succeeded := results.length,
                    created := results.countP (fun r => r.action == "created"),
                    updated := results.countP (fun r => r.action == "updated") }),
                error := if errors.isEmpty then none
                  else some (String.intercalate "; " errors),
                parallel_calls := items.length }
  | _ => .raises ⟨.otherError, "KeyError"⟩

/-! ## Dictionary lemmas -/

/-- Keys of the results map, in insertion order. -/
def keysOf (m : Dict) : List String := m.map (·.1)

theorem any_eq_mem_keys (m : Dict) (k : String) :
    (List.any m (fun p => p.1 == k)) = true ↔ k ∈ keysOf m := by
  simp only [List.any_eq_true, keysOf, List.mem_map, beq_iff_eq]

theorem keysOf_insert_mem (m : Dict) (k : String) (v : TaskResult)
    (h : k ∈ keysOf m) : keysOf (m.insert k v) = keysOf m := by
  unfold Dict.insert
  rw [if_pos ((any_eq_mem_keys m k).mpr h)]
  unfold keysOf
  clear h
  induction m with
  | nil => rfl
  | cons p rest ih =>
      by_cases hp : p.1 = k
      · have hu : (if (p.1 == k) = true then (k, v) else p) = (k, v) := by
          simp [hp]
        simp only [List.map_cons, hu, ih]
        rw [hp]
      · have hb : (p.1 == k) = false := beq_eq_false_iff_ne.mpr hp
        have hu : (if (p.1 == k) = true then (k, v) else p) = p := by
          simp [hb]
        simp only [List.map_cons, hu, ih]

theorem keysOf_insert_fresh (m : Dict) (k : String) (v : TaskResult)
    (h : k ∉ keysOf m) : keysOf (m.insert k v) = keysOf m ++ [k] := by
  unfold Dict.insert
  rw [if_neg (fun hc => h ((any_eq_mem_keys m k).mp hc))]
  unfold keysOf
  rw [List.map_append]
  rfl

theorem length_insert_fresh (m : Dict) (k : String) (v : TaskResult)
    (h : k ∉ keysOf m) : (m.insert k v).length = m.length + 1 := by
  unfold Dict.insert
  rw [if_neg (fun hc => h ((any_eq_mem_keys m k).mp hc))]
  simp

theorem get?_insert_self (m : Dict) (k : String) (v : TaskResult) :
    (m.insert k v).get? k = some v := by
  unfold Dict.insert
  by_cases h : List.any m (fun p => p.1 == k) = true
  · rw [if_pos h]
    unfold Dict.get?
    induction m with
    | nil => simp at h
    | cons p rest ih =>
        by_cases hp : p.1 = k
        · have hu : (if (p.1 == k) = true then (k, v) else p) = (k, v) := by
            simp [hp]
          rw [List.map_cons, hu, List.find?_cons_of_pos _ (by simp)]
          rfl
        · have hb : (p.1 == k) = false := beq_eq_false_iff_ne.mpr hp
          have hu : (if (p.1 == k) = true then (k, v) else p) = p := by
            simp [hb]
          simp only [List.any_cons, hb, Bool.false_or] at h
          rw [List.map_cons, hu, List.find?_cons_of_neg _ (by simp [hb])]
          exact ih h
  · rw [if_neg h]
    unfold Dict.get?
    rw [List.find?_append]
    have hnone : List.find? (fun p => p.1 == k) m = none := by
      rw [List.find?_eq_none]
      intro p hp
      intro hc
      exact h (List.any_eq_true.mpr ⟨p, hp, hc⟩)
    rw [hnone]
    simp [List.find?_cons_of_pos]

theorem get?_insert_ne (m : Dict) (k k' : String) (v : TaskResult)
    (h : k' ≠ k) : (m.insert k v).get? k' = m.get? k' := by
  unfold Dict.insert
  by_cases hc : List.any m (fun p => p.1 == k) = true
  · rw [if_pos hc]
    unfold Dict.get?
    clear hc
    induction m with
    | nil => simp
    | cons p rest ih =>
        by_cases hp : p.1 = k
        · have hu : (if (p.1 == k) = true then (k, v) else p) = (k, v) := by
            simp [hp]
          have hb1 : ((k, v).1 == k') = false :=
            beq_eq_false_iff_ne.mpr (fun he => h he.symm)
          have hb2 : (p.1 == k') = false :=
            beq_eq_false_iff_ne.mpr (fun he => h (hp ▸ he).symm)
          rw [List.map_cons, hu, List.find?_cons_of_neg _ (by simp [hb1]),
            List.find?_cons_of_neg _ (by simp [hb2])]
          exact ih
        · have hu : (if (p.1 == k) = true then (k, v) else p) = p := by
            have hb : (p.1 == k) = false := beq_eq_false_iff_ne.mpr hp
            simp [hb]
          rw [List.map_cons, hu]
          cases hbv : (p.1 == k') with
          | true => simp only [List.find?, hbv]
          | false => simp only [List.find?, hbv]; exact ih
  · rw [if_neg hc]
    unfold Dict.get?
    rw [List.find?_append]
    cases hf : List.find? (fun p => p.1 == k') m with
    | some p => rfl
    | none =>
        have hb : ((k, v).1 == k') = false :=
          beq_eq_false_iff_ne.mpr (fun he => h he.symm)
        simp only [Option.none_or]
        rw [List.find?_cons_of_neg _ (by simp [hb]), List.find?]

/-! ## Independent-phase characterization -/

/-- With a positive wave bound, the wave loop over the independent tasks
behaves as a plain left-to-right map: positional results, sequential
recording, and executor invocations in task order. -/
theorem runIndependent_spec (ex : Executors) (mp : Nat) (hmp : 0 < mp) :
    ∀ ts : List SubagentTask, ∀ m : Dict,
      runIndependent ex mp m ts =
        { results := ts.map (indepResult ex),
          m := ts.foldl (fun acc t => acc.insert t.task_id (indepResult ex t)) m,
          invoked := ts.flatMap (invokedIds ex),
          recorded := ts.map (fun t => (t.task_id, indepResult ex t)) } := by
  have H : ∀ n, ∀ ts : List SubagentTask, ts.length ≤ n → ∀ m : Dict,
      runIndependent ex mp m ts =
        { results := ts.map (indepResult ex),
          m := ts.foldl (fun acc t => acc.insert t.task_id (indepResult ex t)) m,
          invoked := ts.flatMap (invokedIds ex),
          recorded := ts.map (fun t => (t.task_id, indepResult ex t)) } := by
    intro n
    induction n with
    | zero =>
        intro ts hlen m
        have hts : ts = [] := List.length_eq_zero.mp (Nat.le_zero.mp hlen)
        subst hts
        simp [runIndependent]
    | succ n ih =>
        intro ts hlen m
        match ts with
        | [] => simp [runIndependent]
        | t :: rest =>
            rw [runIndependent]
            rw [dif_neg (Nat.pos_iff_ne_zero.mp hmp)]
            have hdrop : ((t :: rest).drop mp).length ≤ n := by
              simp only [List.length_drop, List.length_cons]
              simp only [List.length_cons] at hlen
              omega
            simp only [runWave]
            rw [ih _ hdrop]
            congr 1
            · rw [← List.map_append, List.take_append_drop]
            · rw [← List.foldl_append, List.take_append_drop]
            · rw [← List.flatMap_append, List.take_append_drop]
            · rw [← List.map_append, List.take_append_drop]
  intro ts m
  exact H ts.length ts (Nat.le_refl _) m


/-! ## Dependent-phase lemmas -/

/-- The executor contract from the spec's data model: a returned Result's
`task_id` echoes the originating task's id. -/
def EchoIds (ex : Executors) : Prop :=
  ∀ ty e, ex ty = some e → ∀ t r, e.execute t = .ok r → r.task_id = t.task_id

theorem executeTask_result_id (ex : Executors) (hEcho : EchoIds ex)
    (t : SubagentTask) (r : TaskResult)
    (h : (executeTask ex t).outcome = .result r) : r.task_id = t.task_id := by
  unfold executeTask at h
  cases hx : ex t.task_type with
  | none =>
      rw [hx] at h
      simp only at h
      injection h with h2
      rw [← h2]
  | some e =>
      rw [hx] at h
      simp only at h
      cases he : e.execute t with
      | ok r' =>
          rw [he] at h
          simp only at h
          injection h with h2
          rw [← h2]
          exact hEcho _ _ hx _ _ he
      | timesOut =>
          rw [he] at h
          simp only at h
          injection h with h2
          rw [← h2]
      | raises exc =>
          rw [he] at h
          simp only at h
          by_cases hc : caughtByDispatch exc.ty = true
          · rw [if_pos hc] at h; injection h with h2; rw [← h2]
          · rw [if_neg hc] at h; simp at h

theorem runDependent_ok_ids (ex : Executors) (hEcho : EchoIds ex) :
    ∀ ts : List SubagentTask, ∀ m : Dict, ∀ rs,
      (runDependent ex m ts).ret = .ok rs →
      rs.map (·.task_id) = ts.map (·.task_id) := by
  intro ts
  induction ts with
  | nil =>
      intro m rs h
      simp only [runDependent] at h
      injection h with h2
      rw [← h2]
      rfl
  | cons t rest ih =>
      intro m rs h
      rw [runDependent] at h
      by_cases hs : depsSatisfied m t = true
      · rw [if_pos hs] at h
        cases hd : executeTask ex t with
        | mk outcome inv =>
            rw [hd] at h
            cases outcome with
            | result r =>
                simp only at h
                cases hrest : (runDependent ex (m.insert t.task_id r) rest).ret with
                | error e => rw [hrest] at h; simp [Except.map] at h
                | ok rs' =>
                    rw [hrest] at h
                    simp only [Except.map] at h
                    injection h with h2
                    rw [← h2]
                    simp only [List.map_cons]
                    rw [ih _ _ hrest]
                    have hid : r.task_id = t.task_id := by
                      apply executeTask_result_id ex hEcho t r
                      rw [hd]
                    rw [hid]
            | exc e =>
                simp only at h
                simp [Except.map] at h
      · rw [if_neg hs] at h
        simp only at h
        cases hrest : (runDependent ex m rest).ret with
        | error e => rw [hrest] at h; simp [Except.map] at h
        | ok rs' =>
            rw [hrest] at h
            simp only [Except.map] at h
            injection h with h2
            rw [← h2]
            simp only [List.map_cons]
            rw [ih _ _ hrest]
            rfl

theorem runDependent_get?_preserved (ex : Executors) :
    ∀ ts : List SubagentTask, ∀ m : Dict, ∀ k,
      k ∉ ts.map (·.task_id) →
      (runDependent ex m ts).m.get? k = m.get? k := by
  intro ts
  induction ts with
  | nil => intro m k _; rfl
  | cons t rest ih =>
      intro m k hk
      simp only [List.map_cons, List.mem_cons, not_or] at hk
      rw [runDependent]
      by_cases hs : depsSatisfied m t = true
      · rw [if_pos hs]
        cases hd : executeTask ex t with
        | mk outcome inv =>
            cases outcome with
            | result r =>
                simp only
                rw [ih _ _ hk.2, get?_insert_ne _ _ _ _ hk.1]
            | exc e => simp only
      · rw [if_neg hs]
        simp only
        exact ih _ _ hk.2

theorem foldl_get?_preserved (f : SubagentTask → TaskResult) :
    ∀ ts : List SubagentTask, ∀ m : Dict, ∀ k,
      k ∉ ts.map (·.task_id) →
      (ts.foldl (fun acc t => acc.insert t.task_id (f t)) m).get? k = m.get? k := by
  intro ts
  induction ts with
  | nil => intro m k _; rfl
  | cons t rest ih =>
      intro m k hk
      simp only [List.map_cons, List.mem_cons, not_or] at hk
      simp only [List.foldl_cons]
      rw [ih _ _ hk.2, get?_insert_ne _ _ _ _ hk.1]

theorem foldl_insert_keys (f : SubagentTask → TaskResult) :
    ∀ ts : List SubagentTask, ∀ m : Dict,
      (∀ t ∈ ts, t.task_id ∉ keysOf m) → (ts.map (·.task_id)).Nodup →
      keysOf (ts.foldl (fun acc t => acc.insert t.task_id (f t)) m) =
        keysOf m ++ ts.map (·.task_id)
      ∧ (ts.foldl (fun acc t => acc.insert t.task_id (f t)) m).length =
        m.length + ts.length := by
  intro ts
  induction ts with
  | nil => intro m _ _; exact ⟨by simp, by simp⟩
  | cons t rest ih =>
      intro m hfresh hnd
      simp only [List.foldl_cons]
      have hf : t.task_id ∉ keysOf m := hfresh t (by simp)
      have hkeys := keysOf_insert_fresh m t.task_id (f t) hf
      simp only [List.map_cons, List.nodup_cons] at hnd
      have hfresh2 : ∀ u ∈ rest, u.task_id ∉ keysOf (m.insert t.task_id (f t)) := by
        intro u hu
        rw [hkeys]
        simp only [List.mem_append, List.mem_singleton, not_or]
        refine ⟨hfresh u (List.mem_cons_of_mem _ hu), ?_⟩
        intro he
        exact hnd.1 (he ▸ List.mem_map_of_mem _ hu)
      obtain ⟨hk, hl⟩ := ih (m.insert t.task_id (f t)) hfresh2 hnd.2
      constructor
      · rw [hk, hkeys]
        simp [List.append_assoc]
      · rw [hl, length_insert_fresh m _ _ hf]
        simp only [List.length_cons]
        omega

theorem foldl_get?_mem (f : SubagentTask → TaskResult) :
    ∀ ts : List SubagentTask, ∀ m : Dict,
      (∀ t ∈ ts, t.task_id ∉ keysOf m) → (ts.map (·.task_id)).Nodup →
      ∀ t ∈ ts,
      (ts.foldl (fun acc t => acc.insert t.task_id (f t)) m).get? t.task_id =
        some (f t) := by
  intro ts
  induction ts with
  | nil => intro m _ _ t ht; cases ht
  | cons u rest ih =>
      intro m hfresh hnd t ht
      simp only [List.map_cons, List.nodup_cons] at hnd
      have hfu : u.task_id ∉ keysOf m := hfresh u (by simp)
      have hkeys := keysOf_insert_fresh m u.task_id (f u) hfu
      have hfresh2 : ∀ w ∈ rest, w.task_id ∉ keysOf (m.insert u.task_id (f u)) := by
        intro w hw
        rw [hkeys]
        simp only [List.mem_append, List.mem_singleton, not_or]
        refine ⟨hfresh w (List.mem_cons_of_mem _ hw), ?_⟩
        intro he
        exact hnd.1 (he ▸ List.mem_map_of_mem _ hw)
      simp only [List.foldl_cons]
      rcases List.mem_cons.mp ht with he | hr
      · subst he
        rw [foldl_get?_preserved f rest _ _ hnd.1]
        exact get?_insert_self m t.task_id (f t)
      · exact ih (m.insert u.task_id (f u)) hfresh2 hnd.2 t hr

theorem runDependent_fresh_spec (ex : Executors) :
    ∀ ts : List SubagentTask, ∀ m : Dict,
      (∀ t ∈ ts, t.task_id ∉ keysOf m) → (ts.map (·.task_id)).Nodup →
      ∀ rs, (runDependent ex m ts).ret = .ok rs →
      keysOf (runDependent ex m ts).m =
        keysOf m ++ (runDependent ex m ts).recorded.map (·.1)
      ∧ (runDependent ex m ts).m.length =
        m.length + (runDependent ex m ts).recorded.length
      ∧ List.Perm
          ((runDependent ex m ts).recorded.map (·.1) ++
            (runDependent ex m ts).cancelledUnmet)
          (ts.map (·.task_id))
      ∧ (∀ p ∈ (runDependent ex m ts).recorded,
          (runDependent ex m ts).m.get? p.1 = some p.2) := by
  intro ts
  induction ts with
  | nil =>
      intro m _ _ rs _
      refine ⟨by simp [runDependent], by simp [runDependent], ?_, ?_⟩
      · simp [runDependent]
      · intro p hp; simp [runDependent] at hp
  | cons t rest ih =>
      intro m hfresh hnd rs h
      simp only [List.map_cons, List.nodup_cons] at hnd
      have hft : t.task_id ∉ keysOf m := hfresh t (by simp)
      rw [runDependent] at h
      rw [runDependent]
      by_cases hs : depsSatisfied m t = true
      · rw [if_pos hs] at h ⊢
        cases hd : executeTask ex t with
        | mk outcome inv =>
            rw [hd] at h
            cases outcome with
            | result r =>
                simp only at h ⊢
                have hkeys := keysOf_insert_fresh m t.task_id r hft
                have hfresh2 : ∀ u ∈ rest,
                    u.task_id ∉ keysOf (m.insert t.task_id r) := by
                  intro u hu
                  rw [hkeys]
                  simp only [List.mem_append, List.mem_singleton, not_or]
                  refine ⟨hfresh u (List.mem_cons_of_mem _ hu), ?_⟩
                  intro he
                  exact hnd.1 (he ▸ List.mem_map_of_mem _ hu)
                cases hrest : (runDependent ex (m.insert t.task_id r) rest).ret with
                | error e => rw [hrest] at h; simp [Except.map] at h
                | ok rs' =>
                    obtain ⟨hk, hl, hperm, hget⟩ :=
                      ih (m.insert t.task_id r) hfresh2 hnd.2 rs' hrest
                    refine ⟨?_, ?_, ?_, ?_⟩
                    · rw [hk, hkeys]
                      simp [List.append_assoc]
                    · rw [hl, length_insert_fresh m _ _ hft]
                      simp only [List.length_cons]
                      omega
                    · simp only [List.map_cons, List.cons_append]
                      exact List.Perm.cons _ hperm
                    · intro p hp
                      rcases List.mem_cons.mp hp with he | hr
                      · subst he
                        rw [runDependent_get?_preserved ex rest _ _ hnd.1]
                        exact get?_insert_self m t.task_id r
                      · exact hget p hr
            | exc e => simp only at h; simp [Except.map] at h
      · rw [if_neg hs] at h ⊢
        simp only at h ⊢
        cases hrest : (runDependent ex m rest).ret with
        | error e => rw [hrest] at h; simp [Except.map] at h
        | ok rs' =>
            have hfresh2 : ∀ u ∈ rest, u.task_id ∉ keysOf m := by
              intro u hu
              exact hfresh u (List.mem_cons_of_mem _ hu)
            obtain ⟨hk, hl, hperm, hget⟩ := ih m hfresh2 hnd.2 rs' hrest
            refine ⟨hk, hl, ?_, hget⟩
            simp only [List.map_cons]
            exact List.Perm.trans List.perm_middle (List.Perm.cons _ hperm)

/-! ## Small helpers -/

theorem length_filter_partition {α : Type} (p : α → Bool) (l : List α) :
    (l.filter p).length + (l.filter (fun x => !p x)).length = l.length := by
  induction l with
  | nil => rfl
  | cons a l ih =>
      by_cases h : p a = true
      · simp [List.filter_cons, h, Nat.succ_add, ih]
      · have h2 : p a = false := by
          cases hv : p a with
          | true => exact absurd hv h
          | false => rfl
        simp [List.filter_cons, h2, ← ih]
        omega

theorem invokedIds_sub (ex : Executors) (t : SubagentTask) (i : String)
    (h : i ∈ invokedIds ex t) : i = t.task_id := by
  unfold invokedIds at h
  by_cases hv : (executeTask ex t).invoked = true
  · rw [if_pos hv] at h
    exact List.mem_singleton.mp h
  · rw [if_neg hv] at h
    cases h

theorem runDependent_invoked_sub (ex : Executors) :
    ∀ ts : List SubagentTask, ∀ m : Dict, ∀ i,
      i ∈ (runDependent ex m ts).invoked → i ∈ ts.map (·.task_id) := by
  intro ts
  induction ts with
  | nil => intro m i h; cases h
  | cons t rest ih =>
      intro m i h
      rw [runDependent] at h
      simp only [List.map_cons, List.mem_cons]
      by_cases hs : depsSatisfied m t = true
      · rw [if_pos hs] at h
        cases hd : executeTask ex t with
        | mk outcome inv =>
            rw [hd] at h
            cases outcome with
            | result r =>
                simp only at h
                rcases List.mem_append.mp h with h1 | h2
                · left
                  by_cases hv : inv = true
                  · rw [if_pos hv] at h1; exact List.mem_singleton.mp h1
                  · rw [if_neg hv] at h1; cases h1
                · right; exact ih _ _ h2
            | exc e =>
                simp only at h
                left
                by_cases hv : inv = true
                · rw [if_pos hv] at h; exact List.mem_singleton.mp h
                · rw [if_neg hv] at h; cases h
      · rw [if_neg hs] at h
        simp only at h
        right
        exact ih _ _ h

theorem indepResult_id (ex : Executors) (hEcho : EchoIds ex)
    (t : SubagentTask) : (indepResult ex t).task_id = t.task_id := by
  unfold indepResult
  cases ho : (executeTask ex t).outcome with
  | result r => exact executeTask_result_id ex hEcho t r ho
  | exc e => rfl

/-! ## Claim theorems -/

/-- C1: whenever `execute_batch` returns (with a positive wave bound,
id-echoing executors, and unique task ids), it returns exactly one Result
per input task — the output ids are the independent tasks' ids in their
relative input order followed by the dependent tasks' ids in their
relative input order, a permutation (same multiset) of the input ids. -/
theorem executeBatch_cardinality_and_partition_order
    (mp : Nat) (st : OrchState) (tasks : List SubagentTask)
    (hmp : 0 < mp) (hEcho : EchoIds st.executors)
    (_hnd : (tasks.map (·.task_id)).Nodup)
    (rs : List TaskResult)
    (hret : (executeBatch mp st tasks).ret = .ok rs) :
    rs.length = tasks.length ∧
    rs.map (·.task_id) =
      (tasks.filter (fun t => t.dependencies.isEmpty)).map (·.task_id) ++
      (tasks.filter (fun t => !t.dependencies.isEmpty)).map (·.task_id) ∧
    List.Perm (rs.map (·.task_id)) (tasks.map (·.task_id)) := by
  unfold executeBatch at hret
  simp only at hret
  rw [runIndependent_spec st.executors mp hmp] at hret
  simp only at hret
  cases hdep : (runDependent st.executors
      ((tasks.filter (fun t => t.dependencies.isEmpty)).foldl
        (fun acc t => acc.insert t.task_id (indepResult st.executors t))
        st.results)
      (tasks.filter (fun t => !t.dependencies.isEmpty))).ret with
  | error e => rw [hdep] at hret; simp [Except.map] at hret
  | ok ds =>
      rw [hdep] at hret
      simp only [Except.map] at hret
      injection hret with h2
      have hdids := runDependent_ok_ids st.executors hEcho _ _ _ hdep
      have hmain : rs.map (·.task_id) =
          (tasks.filter (fun t => t.dependencies.isEmpty)).map (·.task_id) ++
          (tasks.filter (fun t => !t.dependencies.isEmpty)).map (·.task_id) := by
        rw [← h2, List.map_append, hdids, List.map_map]
        congr 1
        apply List.map_congr_left
        intro t _
        exact indepResult_id st.executors hEcho t
      have hperm : List.Perm (rs.map (·.task_id)) (tasks.map (·.task_id)) := by
        rw [hmain, ← List.map_append]
        exact (List.filter_append_perm _ tasks).map (·.task_id)
      refine ⟨?_, hmain, hperm⟩
      have := hperm.length_eq
      simpa using this

/-- C2: a dependent task whose dependency list contains an id that does
not map to a recorded Completed result (a missing id reads as the Pending
default) gets the synthesized Cancelled — not Failed — result carrying
"Dependencies not satisfied", and contributes no executor invocation:
the dependent-phase trace for `t :: ts` is the trace for `ts` with the
Cancelled result consed on and the invocation list unchanged. -/
theorem unmetDependency_yields_cancelled_not_failed
    (ex : Executors) (m : Dict) (t : SubagentTask) (ts : List SubagentTask)
    (dep : String) (hdep : dep ∈ t.dependencies)
    (hns : ((m.get? dep).getD pendingDefault).status ≠ .completed) :
    (runDependent ex m (t :: ts)).ret =
      ((runDependent ex m ts).ret).map (cancelledResult t :: ·) ∧
    (runDependent ex m (t :: ts)).invoked = (runDependent ex m ts).invoked ∧
    (runDependent ex m (t :: ts)).m = (runDependent ex m ts).m ∧
    (cancelledResult t).status = .cancelled ∧
    (cancelledResult t).status ≠ .failed ∧
    (cancelledResult t).error = some "Dependencies not satisfied" := by
  have hsat : depsSatisfied m t = false := by
    unfold depsSatisfied
    rw [List.all_eq_false]
    refine ⟨dep, hdep, ?_⟩
    simp only [beq_iff_eq]
    simpa using hns
  rw [runDependent]
  rw [if_neg (by rw [hsat]; exact Bool.false_ne_true)]
  exact ⟨rfl, rfl, rfl, rfl, by intro hc; simp [cancelledResult] at hc, rfl⟩

/-! ## Concrete fixtures for witnesses and counterexamples -/

/-- An executor that accepts every task and returns a Completed result
echoing the task's id. -/
def okExec : Executor :=
  { validate_task := fun _ => true,
    execute := fun t =>
      .ok { task_id := t.task_id, task_type := t.task_type, status := .completed } }

/-- An executor whose `execute` raises an exception class outside
`(OSError, ValueError, RuntimeError)`. -/
def boomExec : Executor :=
  { validate_task := fun _ => true,
    execute := fun _ => .raises ⟨.otherError, "boom"⟩ }

/-- An executor whose `execute` raises a `ValueError`. -/
def errExec : Executor :=
  { validate_task := fun _ => true,
    execute := fun _ => .raises ⟨.valueError, "bad"⟩ }

/-- An executor whose `execute` never settles within the timeout. -/
def slowExec : Executor :=
  { validate_task := fun _ => true,
    execute := fun _ => .timesOut }

/-- An executor whose `validate_task` rejects everything while `execute`
completes normally. -/
def invalidExec : Executor :=
  { validate_task := fun _ => false,
    execute := fun t =>
      .ok { task_id := t.task_id, task_type := t.task_type, status := .completed } }

def exAll : Executors := fun _ => some okExec
def exBoomAll : Executors := fun _ => some boomExec
def exErrAll : Executors := fun _ => some errExec
def exSlowAll : Executors := fun _ => some slowExec
def exInvalidAll : Executors := fun _ => some invalidExec
def exEmpty : Executors := fun _ => none

/-- Completed tasks for the validation type, raising for the research
type: used to drive a dependent task into its executor. -/
def exMixed : Executors := fun ty =>
  match ty with
  | .validation => some okExec
  | .research => some boomExec
  | _ => none

def stOk : OrchState := { executors := exAll, results := [], task_queue := [] }
def stInvalid : OrchState :=
  { executors := exInvalidAll, results := [], task_queue := [] }
def stMixed : OrchState := { executors := exMixed, results := [], task_queue := [] }

def tIndep : SubagentTask :=
  { task_id := "a", task_type := .validation, payload := .other "p" }
def tDep : SubagentTask :=
  { task_id := "b", task_type := .validation, payload := .other "p",
    dependencies := ["a"] }
def tDepBoom : SubagentTask :=
  { task_id := "b", task_type := .research, payload := .other "p",
    dependencies := ["a"] }
def tOrphan : SubagentTask :=
  { task_id := "c", task_type := .validation, payload := .other "p",
    dependencies := ["zzz"] }
def tPlain : SubagentTask :=
  { task_id := "t", task_type := .validation, payload := .other "p" }

theorem exAll_echo : EchoIds exAll := by
  intro ty e he t r hr
  injection he with h
  subst h
  injection hr with h2
  rw [← h2]

def rIndep : TaskResult :=
  { task_id := "a", task_type := .validation, status := .completed }
def rDep : TaskResult :=
  { task_id := "b", task_type := .validation, status := .completed }

/-- Witness for C1 at a two-task batch (one independent, one dependent). -/
theorem executeBatch_cardinality_witness :
    ([rIndep, rDep].length = [tIndep, tDep].length) ∧
    [rIndep, rDep].map (·.task_id) =
      ([tIndep, tDep].filter (fun t => t.dependencies.isEmpty)).map (·.task_id) ++
      ([tIndep, tDep].filter (fun t => !t.dependencies.isEmpty)).map (·.task_id) ∧
    List.Perm ([rIndep, rDep].map (·.task_id)) ([tIndep, tDep].map (·.task_id)) :=
  executeBatch_cardinality_and_partition_order 8 stOk [tIndep, tDep]
    (by decide) exAll_echo (by decide) [rIndep, rDep]
    (by simp [executeBatch, runIndependent, runWave, runDependent, indepResult,
      executeTask, exAll, okExec, stOk, tIndep, tDep, depsSatisfied, Dict.get?,
      Dict.insert, invokedIds, pendingDefault, Except.map, rIndep, rDep])

/-- Witness for C2 at a dependent task whose single dependency was never
run. -/
theorem unmetDependency_cancelled_witness :
    (runDependent exAll [] [tOrphan]).ret =
      ((runDependent exAll [] []).ret).map (cancelledResult tOrphan :: ·) ∧
    (runDependent exAll [] [tOrphan]).invoked =
      (runDependent exAll [] []).invoked ∧
    (runDependent exAll [] [tOrphan]).m = (runDependent exAll [] []).m ∧
    (cancelledResult tOrphan).status = .cancelled ∧
    (cancelledResult tOrphan).status ≠ .failed ∧
    (cancelledResult tOrphan).error = some "Dependencies not satisfied" :=
  unmetDependency_yields_cancelled_not_failed exAll [] tOrphan [] "zzz"
    (by decide) (by decide)

/-- Counterexample to C3: an exception outside `(OSError, ValueError,
RuntimeError)` (here a `KeyError`-like class) escaping the executor is
not turned into a Failed result — `_execute_task` lets it propagate. -/
theorem dispatch_uncaught_exception_escapes_counterexample :
    executeTask exBoomAll tPlain =
      { outcome := .exc ⟨.otherError, "boom"⟩, invoked := true } := by
  rfl

/-- C3 amended: `_execute_task` synthesizes a Failed result with a "no
executor" error when no executor is registered; a TimedOut result
(distinct from Failed) when the executor does not settle within
`task.timeout_seconds`; a Failed result carrying the exception's text
when an `OSError`, `ValueError` or `RuntimeError` escapes the executor;
any other exception class escapes `_execute_task` itself. -/
theorem dispatch_outcomes_amended (ex : Executors) (t : SubagentTask) :
    (ex t.task_type = none →
      executeTask ex t =
        { outcome := .result
            { task_id := t.task_id, task_type := t.task_type,
              status := .failed,
              error := some ("No executor for task type: " ++ t.task_type.str) },
          invoked := false }) ∧
    (∀ e, ex t.task_type = some e → e.execute t = .timesOut →
      executeTask ex t =
        { outcome := .result
            { task_id := t.task_id, task_type := t.task_type,
              status := .timeout,
              error := some ("Task timed out after " ++
                toString t.timeout_seconds ++ "s") },
          invoked := true } ∧
      TaskStatus.timeout ≠ TaskStatus.failed) ∧
    (∀ e exc, ex t.task_type = some e → e.execute t = .raises exc →
      caughtByDispatch exc.ty = true →
      executeTask ex t =
        { outcome := .result
            { task_id := t.task_id, task_type := t.task_type,
              status := .failed, error := some exc.msg },
          invoked := true }) ∧
    (∀ e exc, ex t.task_type = some e → e.execute t = .raises exc →
      caughtByDispatch exc.ty = false →
      executeTask ex t = { outcome := .exc exc, invoked := true }) := by
  refine ⟨?_, ?_, ?_, ?_⟩
  · intro hn
    unfold executeTask
    rw [hn]
  · intro e he hto
    refine ⟨?_, by decide⟩
    unfold executeTask
    rw [he]
    simp only
    rw [hto]
  · intro e exc he hr hc
    unfold executeTask
    rw [he]
    simp only
    rw [hr]
    simp only [hc, if_true]
  · intro e exc he hr hc
    unfold executeTask
    rw [he]
    simp only
    rw [hr]
    simp only [hc, Bool.false_eq_true, if_false]

/-- Witness for the amended C3: the four dispatch outcomes at concrete
executors. -/
theorem dispatch_outcomes_amended_witness :
    (executeTask exEmpty tPlain =
      { outcome := .result
          { task_id := "t", task_type := .validation, status := .failed,
            error := some "No executor for task type: TaskType.VALIDATION" },
        invoked := false }) ∧
    (executeTask exSlowAll tPlain =
      { outcome := .result
          { task_id := "t", task_type := .validation, status := .timeout,
            error := some "Task timed out after 30s" },
        invoked := true }) ∧
    (executeTask exErrAll tPlain =
      { outcome := .result
          { task_id := "t", task_type := .validation, status := .failed,
            error := some "bad" },
        invoked := true }) ∧
    (executeTask exBoomAll tPlain =
      { outcome := .exc ⟨.otherError, "boom"⟩, invoked := true }) := by
  refine ⟨?_, ?_, ?_, ?_⟩
  · exact (dispatch_outcomes_amended exEmpty tPlain).1 rfl
  · exact ((dispatch_outcomes_amended exSlowAll tPlain).2.1 slowExec rfl rfl).1
  · exact (dispatch_outcomes_amended exErrAll tPlain).2.2.1 errExec
      ⟨.valueError, "bad"⟩ rfl rfl rfl
  · exact (dispatch_outcomes_amended exBoomAll tPlain).2.2.2 boomExec
      ⟨.otherError, "boom"⟩ rfl rfl rfl

theorem get?_eq_none_of_not_mem_keys (m : Dict) (k : String)
    (h : k ∉ keysOf m) : m.get? k = none := by
  unfold Dict.get?
  rw [List.find?_eq_none.mpr]
  · rfl
  · intro p hp hc
    exact h ((any_eq_mem_keys m k).mp (List.any_eq_true.mpr ⟨p, hp, hc⟩))

/-- Counterexample to C4: a batch consisting of one dependent task whose
dependency never ran returns its Cancelled result, yet the internal
results map stays empty and the report counts zero tasks — the Cancelled
result is never recorded. -/
theorem cancelled_result_not_recorded_counterexample :
    (executeBatch 8 stOk [tOrphan]).ret = .ok [cancelledResult tOrphan] ∧
    (executeBatch 8 stOk [tOrphan]).st.results = [] ∧
    (executeBatch 8 stOk [tOrphan]).st.results.get? "c" = none ∧
    (generateReport (executeBatch 8 stOk [tOrphan]).st).total_tasks = 0 := by
  refine ⟨?_, ?_, ?_, ?_⟩ <;>
    simp [executeBatch, runIndependent, runWave, runDependent, indepResult,
      executeTask, exAll, okExec, stOk, tOrphan, depsSatisfied, Dict.get?,
      Dict.insert, invokedIds, pendingDefault, Except.map, generateReport,
      cancelledResult]

/-- C4 amended: every Result that `execute_batch` produces for an
independent task or a dependency-satisfied dependent task is recorded in
the internal results map (the map `generate_report` reads), but the
Cancelled results synthesized for unmet dependencies are not; with unique
ids fresh for the map, the report's total task count plus the number of
unmet-dependency cancellations equals the prior map size plus the number
of tasks processed, and no unmet-cancelled task id is in the map. -/
theorem recorded_results_account_for_report_total
    (mp : Nat) (st : OrchState) (tasks : List SubagentTask)
    (hmp : 0 < mp)
    (hnd : (tasks.map (·.task_id)).Nodup)
    (hfresh : ∀ t ∈ tasks, t.task_id ∉ keysOf st.results)
    (rs : List TaskResult)
    (hret : (executeBatch mp st tasks).ret = .ok rs) :
    (generateReport (executeBatch mp st tasks).st).total_tasks +
      (executeBatch mp st tasks).cancelledUnmet.length =
      st.results.length + tasks.length ∧
    (∀ p ∈ (executeBatch mp st tasks).recorded,
      (executeBatch mp st tasks).st.results.get? p.1 = some p.2) ∧
    (∀ i ∈ (executeBatch mp st tasks).cancelledUnmet,
      (executeBatch mp st tasks).st.results.get? i = none) := by
  have hperm : List.Perm
      ((tasks.filter (fun t => t.dependencies.isEmpty)).map (·.task_id) ++
        (tasks.filter (fun t => !t.dependencies.isEmpty)).map (·.task_id))
      (tasks.map (·.task_id)) := by
    rw [← List.map_append]
    exact (List.filter_append_perm _ tasks).map (·.task_id)
  have hnodups := (hperm.nodup_iff).mpr hnd
  rw [List.nodup_append] at hnodups
  obtain ⟨hndI, hndD, hdisj⟩ := hnodups
  have hfreshI : ∀ t ∈ tasks.filter (fun t => t.dependencies.isEmpty),
      t.task_id ∉ keysOf st.results :=
    fun t ht => hfresh t (List.mem_of_mem_filter ht)
  have hfreshD0 : ∀ t ∈ tasks.filter (fun t => !t.dependencies.isEmpty),
      t.task_id ∉ keysOf st.results :=
    fun t ht => hfresh t (List.mem_of_mem_filter ht)
  unfold executeBatch at hret ⊢
  simp only at hret ⊢
  rw [runIndependent_spec st.executors mp hmp] at hret ⊢
  simp only at hret ⊢
  obtain ⟨hkeys1, hlen1⟩ :=
    foldl_insert_keys (indepResult st.executors)
      (tasks.filter (fun t => t.dependencies.isEmpty)) st.results hfreshI hndI
  have hfreshD : ∀ t ∈ tasks.filter (fun t => !t.dependencies.isEmpty),
      t.task_id ∉ keysOf
        ((tasks.filter (fun t => t.dependencies.isEmpty)).foldl
          (fun acc t => acc.insert t.task_id (indepResult st.executors t))
          st.results) := by
    intro t ht
    rw [hkeys1]
    rw [List.mem_append]
    rintro (hm | hi)
    · exact hfreshD0 t ht hm
    · exact hdisj hi (List.mem_map_of_mem _ ht)
  cases hdep : (runDependent st.executors
      ((tasks.filter (fun t => t.dependencies.isEmpty)).foldl
        (fun acc t => acc.insert t.task_id (indepResult st.executors t))
        st.results)
      (tasks.filter (fun t => !t.dependencies.isEmpty))).ret with
  | error e => rw [hdep] at hret; simp [Except.map] at hret
  | ok ds =>
      obtain ⟨hkeys2, hlen2, hpermRec, hget2⟩ :=
        runDependent_fresh_spec st.executors _ _ hfreshD hndD ds hdep
      have hcancSub : ∀ i ∈ (runDependent st.executors
          ((tasks.filter (fun t => t.dependencies.isEmpty)).foldl
            (fun acc t => acc.insert t.task_id (indepResult st.executors t))
            st.results)
          (tasks.filter (fun t => !t.dependencies.isEmpty))).cancelledUnmet,
          i ∈ (tasks.filter (fun t => !t.dependencies.isEmpty)).map (·.task_id) := by
        intro i hi
        exact hpermRec.mem_iff.mp (List.mem_append.mpr (Or.inr hi))
      have hrecCancNd := hpermRec.nodup_iff.mpr hndD
      rw [List.nodup_append] at hrecCancNd
      obtain ⟨hndRec, hndCanc, hdisjRC⟩ := hrecCancNd
      refine ⟨?_, ?_, ?_⟩
      · unfold generateReport
        simp only
        rw [hlen2, hlen1]
        have hcnt := hpermRec.length_eq
        simp only [List.length_append, List.length_map] at hcnt
        have hpart : (tasks.filter (fun t => t.dependencies.isEmpty)).length +
            (tasks.filter (fun t => !t.dependencies.isEmpty)).length =
            tasks.length := by
          simpa using length_filter_partition
            (fun t => t.dependencies.isEmpty) tasks
        omega
      · intro p hp
        rcases List.mem_append.mp hp with hpi | hpd
        · obtain ⟨t, ht, hpe⟩ := List.mem_map.mp hpi
          have h1 : t.task_id ∉
              (tasks.filter (fun t => !t.dependencies.isEmpty)).map (·.task_id) :=
            fun hmem => hdisj (List.mem_map_of_mem _ ht) hmem
          rw [← hpe]
          simp only
          rw [runDependent_get?_preserved st.executors _ _ _ h1]
          exact foldl_get?_mem (indepResult st.executors) _ _ hfreshI hndI t ht
        · exact hget2 p hpd
      · intro i hi
        apply get?_eq_none_of_not_mem_keys
        rw [hkeys2, hkeys1]
        rw [List.mem_append, List.mem_append]
        rintro ((hm | hind) | hrec)
        · obtain ⟨t, ht, he⟩ := List.mem_map.mp (hcancSub i hi)
          rw [← he] at hm
          exact hfreshD0 t ht hm
        · exact hdisj hind (hcancSub i hi)
        · exact hdisjRC hrec hi

/-- Witness for the amended C4 at a batch with one recorded independent
task and one unmet-dependency cancellation. -/
theorem recorded_results_account_witness :
    (generateReport (executeBatch 8 stOk [tIndep, tOrphan]).st).total_tasks +
      (executeBatch 8 stOk [tIndep, tOrphan]).cancelledUnmet.length =
      stOk.results.length + [tIndep, tOrphan].length :=
  (recorded_results_account_for_report_total 8 stOk [tIndep, tOrphan]
    (by decide) (by decide) (by decide)
    [rIndep, cancelledResult tOrphan]
    (by simp [executeBatch, runIndependent, runWave, runDependent, indepResult,
      executeTask, exAll, okExec, stOk, tIndep, tOrphan, depsSatisfied,
      Dict.get?, Dict.insert, invokedIds, pendingDefault, Except.map, rIndep,
      cancelledResult])).1

/-- Counterexample to C5: a task whose executor's `validate_task` returns
false is still dispatched by `execute_batch` — the executor's `execute`
runs and its Completed result is returned; no "invalid payload" Failed
result is surfaced. -/
theorem executeBatch_ignores_validate_counterexample :
    invalidExec.validate_task tPlain = false ∧
    (executeBatch 8 stInvalid [tPlain]).ret =
      .ok [{ task_id := "t", task_type := .validation, status := .completed }] ∧
    (executeBatch 8 stInvalid [tPlain]).invoked = ["t"] := by
  refine ⟨rfl, ?_, ?_⟩ <;>
    simp [executeBatch, runIndependent, runWave, runDependent, indepResult,
      executeTask, exInvalidAll, invalidExec, stInvalid, tPlain, depsSatisfied,
      Dict.get?, Dict.insert, invokedIds, pendingDefault, Except.map]

/-- C5 amended: payload validation is enforced only by `submit`, which
raises `ValueError` (never returns a Failed result) for a task whose
executor's `validate_task` is false; `execute_batch` never consults
`validate_task` — the executor's `execute` is invoked regardless, both at
single-task dispatch and for an independent task inside a batch. -/
theorem validation_only_in_submit
    (st : OrchState) (task : SubagentTask) (e : Executor)
    (he : st.executors task.task_type = some e)
    (hv : e.validate_task task = false) :
    submit st task =
      .error ("Invalid task payload for type: " ++ task.task_type.str) ∧
    (executeTask st.executors task).invoked = true ∧
    (∀ mp tasks, 0 < mp → task ∈ tasks → task.dependencies = [] →
      task.task_id ∈ (executeBatch mp st tasks).invoked) := by
  have hinv : (executeTask st.executors task).invoked = true := by
    unfold executeTask
    rw [he]
    simp only
    cases hx : e.execute task with
    | ok r => rfl
    | timesOut => rfl
    | raises exc =>
        simp only
        by_cases hc : caughtByDispatch exc.ty = true
        · rw [if_pos hc]
        · rw [if_neg hc]
  refine ⟨?_, hinv, ?_⟩
  · unfold submit
    rw [he]
    simp only
    rw [hv]
    rfl
  · intro mp tasks hmp hmem hdep0
    unfold executeBatch
    simp only
    rw [runIndependent_spec st.executors mp hmp]
    simp only
    rw [List.mem_append]
    left
    rw [List.mem_flatMap]
    refine ⟨task, ?_, ?_⟩
    · rw [List.mem_filter]
      exact ⟨hmem, by rw [hdep0]; rfl⟩
    · unfold invokedIds
      rw [if_pos hinv]
      exact List.mem_singleton.mpr rfl

/-- Witness for the amended C5: an all-rejecting executor still gets its
task dispatched by the batch, while `submit` refuses it. -/
theorem validation_only_in_submit_witness :
    submit stInvalid tPlain =
      .error "Invalid task payload for type: TaskType.VALIDATION" ∧
    (executeTask stInvalid.executors tPlain).invoked = true ∧
    "t" ∈ (executeBatch 8 stInvalid [tPlain]).invoked := by
  have h := validation_only_in_submit stInvalid tPlain invalidExec rfl rfl
  exact ⟨h.1, h.2.1, h.2.2 8 [tPlain] (by decide) (by simp) rfl⟩

def stBoom : OrchState := { executors := exBoomAll, results := [], task_queue := [] }
def tDepErr : SubagentTask :=
  { task_id := "b", task_type := .validation, payload := .other "p",
    dependencies := ["a"] }

/-- Counterexample to C6: an exception of an uncaught class raised by a
dependent task's executor is not captured in a Result — it escapes the
whole `execute_batch` call. -/
theorem dependent_task_exception_escapes_batch_counterexample :
    (executeBatch 8 stMixed [tIndep, tDepBoom]).ret =
      .error ⟨.otherError, "boom"⟩ := by
  simp [executeBatch, runIndependent, runWave, runDependent, indepResult,
    executeTask, exMixed, okExec, boomExec, stMixed, tIndep, tDepBoom,
    depsSatisfied, Dict.get?, Dict.insert, invokedIds, pendingDefault,
    Except.map, caughtByDispatch, failedFromExc]

/-- C6 amended: for independent tasks, every executor exception (of any
class) is captured in that task's Failed result and an all-independent
batch always returns normally; for dependent tasks only
`OSError`/`ValueError`/`RuntimeError` are captured as Failed results —
any other exception class raised by a dependent task's executor
propagates out of the batch call as an error. -/
theorem exception_containment_amended (mp : Nat) (st : OrchState) :
    (∀ tasks, 0 < mp → (∀ t ∈ tasks, t.dependencies = ([] : List String)) →
      (executeBatch mp st tasks).ret =
        .ok (tasks.map (indepResult st.executors))) ∧
    (∀ t e exc, st.executors t.task_type = some e →
      e.execute t = .raises exc →
      indepResult st.executors t = failedFromExc t exc) ∧
    (∀ t exc, (failedFromExc t exc).status = .failed ∧
      (failedFromExc t exc).error = some exc.msg) ∧
    (∀ m t ts e exc, depsSatisfied m t = true →
      st.executors t.task_type = some e → e.execute t = .raises exc →
      caughtByDispatch exc.ty = true →
      (runDependent st.executors m (t :: ts)).ret =
        ((runDependent st.executors
          (m.insert t.task_id (failedFromExc t exc)) ts).ret).map
          (failedFromExc t exc :: ·)) ∧
    (∀ m t ts e exc, depsSatisfied m t = true →
      st.executors t.task_type = some e → e.execute t = .raises exc →
      caughtByDispatch exc.ty = false →
      (runDependent st.executors m (t :: ts)).ret = .error exc) := by
  refine ⟨?_, ?_, fun t exc => ⟨rfl, rfl⟩, ?_, ?_⟩
  · intro tasks hmp hall
    unfold executeBatch
    simp only
    rw [runIndependent_spec st.executors mp hmp]
    simp only
    have h1 : tasks.filter (fun t => t.dependencies.isEmpty) = tasks :=
      List.filter_eq_self.mpr (fun t ht => by rw [hall t ht]; rfl)
    have h2 : tasks.filter (fun t => !t.dependencies.isEmpty) = [] := by
      rw [List.filter_eq_nil_iff]
      intro t ht
      rw [hall t ht]
      simp
    rw [h1, h2, runDependent]
    simp [Except.map]
  · intro t e exc he hr
    unfold indepResult executeTask
    rw [he]
    simp only
    rw [hr]
    simp only
    by_cases hc : caughtByDispatch exc.ty = true
    · rw [if_pos hc]
      rfl
    · rw [if_neg hc]
  · intro m t ts e exc hsat he hr hc
    have hdt : executeTask st.executors t =
        { outcome := .result (failedFromExc t exc), invoked := true } := by
      unfold executeTask
      rw [he]
      simp only
      rw [hr]
      simp only [hc, if_true]
      rfl
    rw [runDependent, if_pos hsat, hdt]
  · intro m t ts e exc hsat he hr hc
    have hdt : executeTask st.executors t =
        { outcome := .exc exc, invoked := true } := by
      unfold executeTask
      rw [he]
      simp only
      rw [hr]
      simp only [hc, Bool.false_eq_true, if_false]
    rw [runDependent, if_pos hsat, hdt]

/-- Witness for the amended C6: a raising independent task is contained
as a Failed result; a dependent task's caught exception becomes a Failed
result; a dependent task's uncaught exception escapes the loop. -/
theorem exception_containment_witness :
    (executeBatch 8 stBoom [tPlain]).ret =
      .ok ([tPlain].map (indepResult stBoom.executors)) ∧
    indepResult stBoom.executors tPlain =
      failedFromExc tPlain ⟨.otherError, "boom"⟩ ∧
    (runDependent exErrAll [("a", rIndep)] [tDepErr]).ret =
      ((runDependent exErrAll
        (Dict.insert [("a", rIndep)] "b"
          (failedFromExc tDepErr ⟨.valueError, "bad"⟩)) []).ret).map
        (failedFromExc tDepErr ⟨.valueError, "bad"⟩ :: ·) ∧
    (runDependent exMixed [("a", rIndep)] [tDepBoom]).ret =
      .error ⟨.otherError, "boom"⟩ := by
  have h8 := exception_containment_amended 8 stBoom
  have hErr := exception_containment_amended 8
    { executors := exErrAll, results := [], task_queue := [] }
  have hMix := exception_containment_amended 8 stMixed
  refine ⟨?_, ?_, ?_, ?_⟩
  · exact h8.1 [tPlain] (by decide) (by decide)
  · exact h8.2.1 tPlain boomExec ⟨.otherError, "boom"⟩ rfl rfl
  · exact hErr.2.2.2.1 [("a", rIndep)] tDepErr [] errExec ⟨.valueError, "bad"⟩
      (by decide) rfl rfl rfl
  · exact hMix.2.2.2.2 [("a", rIndep)] tDepBoom [] boomExec ⟨.otherError, "boom"⟩
      (by decide) rfl rfl rfl

/-- Nested lookup `config[k1][k2]` on a loaded configuration mapping. -/
def configLookup2 (c : List (String × CVal)) (k1 k2 : String) : Option CVal :=
  match cget c k1 with
  | some (.dict d) => cget d k2
  | _ => none

/-- Counterexample to C7: a profile source that parses but is malformed
(an empty mapping, missing `performance_targets`) does not fall back to
the defaults — `SubagentConfig.load` raises `ValueError` to the caller. -/
theorem malformed_config_raises_counterexample :
    configLoad [] (.mapping (some [])) =
      .error "Missing required config key: performance_targets" := by
  rfl

/-- C7 amended: an absent profile source falls back to the hardcoded
defaults (whose `performance_targets` carry `max_parallel_agents = 8` and
`timeout_seconds = 30`), but a malformed source does not: a parsed
document failing validation propagates the `ValueError`, and an
unparseable document propagates the parse error. -/
theorem config_load_absent_defaults_malformed_raises :
    configLoad [] .absent = .ok configDefaults ∧
    configLookup2 configDefaults "performance_targets" "max_parallel_agents" =
      some (.num 8) ∧
    configLookup2 configDefaults "performance_targets" "timeout_seconds" =
      some (.num 30) ∧
    (∀ v e, configValidate (v.getD []) = .error e →
      configLoad [] (.mapping v) = .error e) ∧
    (∀ msg, configLoad [] (.unparseable msg) = .error msg) := by
  refine ⟨rfl, rfl, rfl, ?_, fun msg => rfl⟩
  intro v e h
  simp [configLoad, h]

/-- Witness for the amended C7 at a mapping missing its required key and
at an unparseable document. -/
theorem config_load_witness :
    configLoad [] (.mapping (some [("profiles", .dict [])])) =
      .error "Missing required config key: performance_targets" ∧
    configLoad [] (.unparseable "bad yaml") = .error "bad yaml" :=
  ⟨config_load_absent_defaults_malformed_raises.2.2.2.1
      (some [("profiles", .dict [])]) _ rfl,
    config_load_absent_defaults_malformed_raises.2.2.2.2 "bad yaml"⟩

/-- The per-image outcome of one `pull`/`push` iteration when no
`OSError` occurs: success status on exit code 0, a "failed" entry on a
nonzero exit (`CalledProcessError`) or expiry (`TimeoutExpired`). The
`osError` branch of this statement helper is never reached under the
theorems' hypotheses. -/
def syncOutcome (run : List String → ProcOutcome)
    (verb okStatus image : String) : RegImage :=
  match run ["docker", verb, image] with
  | .completes _ rc => .synced image (if rc == 0 then okStatus else "failed")
  | .timesOutProc => .synced image "failed"
  | .osError _ => .synced image "failed"

theorem syncLoop_map_of_ok (step : String → Except Exc RegImage)
    (f : String → RegImage) (l : List String)
    (h : ∀ i ∈ l, step i = .ok (f i)) : syncLoop step l = .ok (l.map f) := by
  induction l with
  | nil => rfl
  | cons i is ih =>
      rw [syncLoop, h i (List.mem_cons_self i is),
        ih (fun j hj => h j (List.mem_cons_of_mem _ hj))]
      rfl

/-- Counterexample to C8: every `docker pull` exits nonzero
(`CalledProcessError` raised on each per-image invocation), yet the
aggregate Result still has status Completed. -/
def runAllFail : List String → ProcOutcome := fun _ => .completes "" 1

def tPull : SubagentTask :=
  { task_id := "r", task_type := .registry_sync,
    payload := .registry "pull" ["img"] }
def tPush : SubagentTask :=
  { task_id := "r", task_type := .registry_sync,
    payload := .registry "push" ["repo/img"] }

theorem registry_sync_completed_despite_failure_counterexample :
    registrySyncExecute "localhost:5000" runAllFail tPull =
      .ok { task_id := "r", task_type := .registry_sync, status := .completed,
            result := some (.registry "pull"
              [.synced "localhost:5000/img" "failed"]) } := by
  rfl

/-- C8 amended: `pull`/`push` process each image independently — one
image's `SubprocessError` does not stop the others, each contributing its
own per-image entry — but the aggregate status is always Completed
regardless of per-image failures (provided no `OSError` escapes, which
would propagate out of the executor instead). -/
theorem registry_sync_per_image_independence_always_completed
    (registryUrl : String) (run : List String → ProcOutcome)
    (task : SubagentTask) (images : List String) :
    (task.payload = .registry "pull" images →
      (∀ img ∈ images, ∀ msg,
        run ["docker", "pull", fullImageName registryUrl img] ≠ .osError msg) →
      registrySyncExecute registryUrl run task =
        .ok { task_id := task.task_id, task_type := task.task_type,
              status := .completed,
              result := some (.registry "pull"
                (images.map (fun img =>
                  syncOutcome run "pull" "pulled"
                    (fullImageName registryUrl img)))) }) ∧
    (task.payload = .registry "push" images →
      (∀ img ∈ images, ∀ msg,
        run ["docker", "push", img] ≠ .osError msg) →
      registrySyncExecute registryUrl run task =
        .ok { task_id := task.task_id, task_type := task.task_type,
              status := .completed,
              result := some (.registry "push"
                (images.map (fun img => syncOutcome run "push" "pushed" img))) }) := by
  constructor
  · intro hpay hrun
    have hstep : ∀ img ∈ images,
        syncImageStep run "pull" "pulled" (fullImageName registryUrl img) =
          .ok (syncOutcome run "pull" "pulled" (fullImageName registryUrl img)) := by
      intro img hi
      unfold syncImageStep syncOutcome
      cases hr : run ["docker", "pull", fullImageName registryUrl img] with
      | completes out rc => rfl
      | timesOutProc => rfl
      | osError msg => exact absurd hr (hrun img hi msg)
    have hloop := syncLoop_map_of_ok
      (fun img => syncImageStep run "pull" "pulled" (fullImageName registryUrl img))
      (fun img => syncOutcome run "pull" "pulled" (fullImageName registryUrl img))
      images hstep
    unfold registrySyncExecute
    rw [hpay]
    simp only
    rw [if_neg (by decide), if_pos (by decide), hloop]
  · intro hpay hrun
    have hstep : ∀ img ∈ images,
        syncImageStep run "push" "pushed" img =
          .ok (syncOutcome run "push" "pushed" img) := by
      intro img hi
      unfold syncImageStep syncOutcome
      cases hr : run ["docker", "push", img] with
      | completes out rc => rfl
      | timesOutProc => rfl
      | osError msg => exact absurd hr (hrun img hi msg)
    have hloop := syncLoop_map_of_ok
      (fun img => syncImageStep run "push" "pushed" img)
      (fun img => syncOutcome run "push" "pushed" img)
      images hstep
    unfold registrySyncExecute
    rw [hpay]
    simp only
    rw [if_neg (by decide), if_neg (by decide), if_pos (by decide), hloop]

/-- Witness for the amended C8: one failing pull and one failing push
both aggregate to Completed results listing the per-image failures. -/
theorem registry_sync_witness :
    registrySyncExecute "localhost:5000" runAllFail tPull =
      .ok { task_id := "r", task_type := .registry_sync, status := .completed,
            result := some (.registry "pull"
              (["img"].map (fun img =>
                syncOutcome runAllFail "pull" "pulled"
                  (fullImageName "localhost:5000" img)))) } ∧
    registrySyncExecute "localhost:5000" runAllFail tPush =
      .ok { task_id := "r", task_type := .registry_sync, status := .completed,
            result := some (.registry "push"
              (["repo/img"].map (fun img =>
                syncOutcome runAllFail "push" "pushed" img))) } :=
  ⟨(registry_sync_per_image_independence_always_completed "localhost:5000"
      runAllFail tPull ["img"]).1 rfl (by simp [runAllFail]),
    (registry_sync_per_image_independence_always_completed "localhost:5000"
      runAllFail tPush ["repo/img"]).2 rfl (by simp [runAllFail])⟩

/-- Whether the upsert function raises on an item. -/
def upsertRaises (fn : String → String → UpsertCall) (it : UpsertItem) : Bool :=
  match fn it.target it.data with
  | .raises _ => true
  | .ok _ => false

/-- The per-item successes collected by the upsert loop, in iteration
order. -/
def upsertLoopResults (fn : String → String → UpsertCall)
    (l : List UpsertItem) : List UpsertRes :=
  l.filterMap fun it =>
    match fn it.target it.data with
    | .ok r => some r
    | .raises _ => none

/-- The per-item error messages collected by the upsert loop, in
iteration order (only caught exception classes contribute). -/
def upsertLoopErrors (fn : String → String → UpsertCall)
    (l : List UpsertItem) : List String :=
  l.filterMap fun it =>
    match fn it.target it.data with
    | .ok _ => none
    | .raises e =>
        if caughtByDispatch e.ty then some (upsertFailMsg it.target e.msg)
        else none

theorem upsertLoop_eq (fn : String → String → UpsertCall) :
    ∀ l : List UpsertItem,
      (∀ it ∈ l, ∀ e, fn it.target it.data = .raises e →
        caughtByDispatch e.ty = true) →
      upsertLoop fn l = .ok (upsertLoopResults fn l, upsertLoopErrors fn l) := by
  intro l
  induction l with
  | nil => intro _; rfl
  | cons it rest ih =>
      intro hc
      have hrest := ih (fun j hj => hc j (List.mem_cons_of_mem _ hj))
      rw [upsertLoop]
      cases hfn : fn it.target it.data with
      | ok r =>
          rw [hrest]
          simp only [upsertLoopResults, upsertLoopErrors, List.filterMap_cons,
            hfn]
          rfl
      | raises e =>
          have hcaught := hc it (List.mem_cons_self it rest) e hfn
          simp only
          rw [if_pos hcaught, hrest]
          simp only [upsertLoopResults, upsertLoopErrors, List.filterMap_cons,
            hfn, hcaught, if_true]
          rfl

theorem upsertLoopErrors_length (fn : String → String → UpsertCall) :
    ∀ l : List UpsertItem,
      (∀ it ∈ l, ∀ e, fn it.target it.data = .raises e →
        caughtByDispatch e.ty = true) →
      (upsertLoopErrors fn l).length = l.countP (upsertRaises fn) := by
  intro l
  induction l with
  | nil => intro _; rfl
  | cons it rest ih =>
      intro hc
      have hrest := ih (fun j hj => hc j (List.mem_cons_of_mem _ hj))
      simp only [upsertLoopErrors, List.filterMap_cons, List.countP_cons]
      cases hfn : fn it.target it.data with
      | ok r =>
          simp only [upsertRaises, hfn]
          simpa [upsertLoopErrors] using hrest
      | raises e =>
          have hcaught := hc it (List.mem_cons_self it rest) e hfn
          simp only [upsertRaises, hfn, hcaught, if_true, List.length_cons]
          simp only [upsertLoopErrors] at hrest
          rw [hrest]

theorem upsertLoopResults_length (fn : String → String → UpsertCall) :
    ∀ l : List UpsertItem,
      (upsertLoopResults fn l).length + l.countP (upsertRaises fn) =
        l.length := by
  intro l
  induction l with
  | nil => rfl
  | cons it rest ih =>
      cases hfn : fn it.target it.data with
      | ok r =>
          simp [upsertLoopResults, List.filterMap_cons, List.countP_cons,
            upsertRaises, hfn]
          simp only [upsertLoopResults] at ih
          omega
      | raises e =>
          simp [upsertLoopResults, List.filterMap_cons, List.countP_cons,
            upsertRaises, hfn]
          simp only [upsertLoopResults] at ih
          omega

theorem upsertLoopErrors_mem (fn : String → String → UpsertCall) :
    ∀ l : List UpsertItem, ∀ it ∈ l, ∀ e,
      fn it.target it.data = .raises e → caughtByDispatch e.ty = true →
      upsertFailMsg it.target e.msg ∈ upsertLoopErrors fn l := by
  intro l
  induction l with
  | nil => intro it hit; cases hit
  | cons j rest ih =>
      intro it hit e hfn hcaught
      simp only [upsertLoopErrors, List.filterMap_cons]
      rcases List.mem_cons.mp hit with he | hr
      · subst he
        rw [hfn]
        simp only [hcaught, if_true]
        exact List.mem_cons_self _ _
      · cases hfn2 : fn j.target j.data with
        | ok r =>
            simp only [hfn2]
            exact ih it hr e hfn hcaught
        | raises e2 =>
            simp only [hfn2]
            by_cases hc2 : caughtByDispatch e2.ty = true
            · rw [if_pos hc2]
              exact List.mem_cons_of_mem _ (ih it hr e hfn hcaught)
            · rw [if_neg hc2]
              exact ih it hr e hfn hcaught

/-- C9: an Upsert task over `n` payload items of which `k` raise caught
exception classes yields exactly one Result: status Failed iff `k > 0`
(Completed iff `k = 0`), the error string the `"; "`-join of the per-item
messages — one per failed target, each failed target's message present —
a summary reporting `succeeded = n - k`, and `parallel_calls = n`. The
`as_completed` iteration order is an arbitrary permutation `order` of the
payload items. -/
theorem upsert_aggregation_counts_and_errors
    (fn : String → String → UpsertCall) (task : SubagentTask)
    (items order : List UpsertItem)
    (hpay : task.payload = .upsertItems items)
    (horder : List.Perm order items)
    (hc : ∀ it ∈ items, ∀ e, fn it.target it.data = .raises e →
      caughtByDispatch e.ty = true) :
    upsertLoop fn order =
      .ok (upsertLoopResults fn order, upsertLoopErrors fn order) ∧
    upsertExecute fn task order = .ok
      { task_id := task.task_id, task_type := task.task_type,
        status := if items.countP (upsertRaises fn) = 0 then .completed
          else .failed,
        result := some (.upsert (upsertLoopResults fn order)
          { total := items.length,
            succeeded := items.length - items.countP (upsertRaises fn),
            created := (upsertLoopResults fn order).countP
              (fun x => x.action == "created"),
            updated := (upsertLoopResults fn order).countP
              (fun x => x.action == "updated") }),
        error := if items.countP (upsertRaises fn) = 0 then none
          else some (String.intercalate "; " (upsertLoopErrors fn order)),
        parallel_calls := items.length } ∧
    (upsertLoopErrors fn order).length = items.countP (upsertRaises fn) ∧
    (∀ it ∈ items, ∀ e, fn it.target it.data = .raises e →
      upsertFailMsg it.target e.msg ∈ upsertLoopErrors fn order) := by
  have hco : ∀ it ∈ order, ∀ e, fn it.target it.data = .raises e →
      caughtByDispatch e.ty = true :=
    fun it hit => hc it (horder.mem_iff.mp hit)
  have hloop := upsertLoop_eq fn order hco
  have herrlen : (upsertLoopErrors fn order).length =
      items.countP (upsertRaises fn) := by
    rw [upsertLoopErrors_length fn order hco]
    exact horder.countP_eq _
  have hreslen : (upsertLoopResults fn order).length +
      items.countP (upsertRaises fn) = items.length := by
    rw [← horder.countP_eq (upsertRaises fn), ← horder.length_eq]
    exact upsertLoopResults_length fn order
  refine ⟨hloop, ?_, herrlen, ?_⟩
  · unfold upsertExecute
    rw [hpay]
    simp only
    rw [hloop]
    simp only [ExecOutcome.ok.injEq, TaskResult.mk.injEq]
    by_cases hk : items.countP (upsertRaises fn) = 0
    · have he0 : upsertLoopErrors fn order = [] := by
        rw [← List.length_eq_zero, herrlen, hk]
      have hsucc : (upsertLoopResults fn order).length =
          items.length - items.countP (upsertRaises fn) := by omega
      rw [he0, hsucc]
      simp [hk]
    · have hne : (upsertLoopErrors fn order).isEmpty = false := by
        cases hle : upsertLoopErrors fn order with
        | nil => exact absurd (by rw [← herrlen, hle]; rfl) (Ne.symm hk)
        | cons a as => rfl
      have hsucc : (upsertLoopResults fn order).length =
          items.length - items.countP (upsertRaises fn) := by omega
      rw [hsucc]
      simp [hne, hk]
  · intro it hit e hfn
    exact upsertLoopErrors_mem fn order it (horder.mem_iff.mpr hit) e hfn
      (hc it hit e hfn)

def fnW : String → String → UpsertCall := fun target _ =>
  if target == "bad" then .raises ⟨.osError, "denied"⟩
  else .ok { target := target, action := "created" }

def itemsW : List UpsertItem := [⟨"good", "d1"⟩, ⟨"bad", "d2"⟩]
def tUp : SubagentTask :=
  { task_id := "u", task_type := .upsert, payload := .upsertItems itemsW }

/-- Witness for C9: two items, one failing with a caught `OSError`. -/
theorem upsert_aggregation_witness :
    upsertExecute fnW tUp itemsW = .ok
      { task_id := "u", task_type := .upsert, status := .failed,
        result := some (.upsert [{ target := "good", action := "created" }]
          { total := 2, succeeded := 1, created := 1, updated := 0 }),
        error := some "Upsert \x27bad\x27 failed: denied",
        parallel_calls := 2 } ∧
    upsertFailMsg "bad" "denied" ∈ upsertLoopErrors fnW itemsW := by
  have h := upsert_aggregation_counts_and_errors fnW tUp itemsW itemsW rfl
    (List.Perm.refl itemsW)
    (by
      intro it hit e he
      simp only [itemsW, List.mem_cons, List.mem_singleton] at hit
      rcases hit with rfl | rfl | hfalse
      · simp [fnW] at he
      · simp [fnW] at he
        rw [← he]
        rfl
      · cases hfalse)
  refine ⟨?_, ?_⟩
  · exact h.2.1
  · exact h.2.2.2 ⟨"bad", "d2"⟩ (by simp [itemsW]) ⟨.osError, "denied"⟩ rfl

/-- C10: `submit` raises `ValueError` when no executor is registered for
the task's type or when the registered executor's `validate_task`
rejects the task, and enqueues onto `self.task_queue` only when both
checks pass; `execute_batch` never reads the queue — its return value,
results map and executor invocations are identical for any queue
contents, the queue passes through unchanged, and every invoked task id
comes from the list argument. -/
theorem submit_validates_and_queue_unused_by_batch :
    (∀ st task, st.executors task.task_type = none →
      submit st task =
        .error ("No executor registered for task type: " ++
          task.task_type.str)) ∧
    (∀ st task e, st.executors task.task_type = some e →
      e.validate_task task = false →
      submit st task =
        .error ("Invalid task payload for type: " ++ task.task_type.str)) ∧
    (∀ st task e, st.executors task.task_type = some e →
      e.validate_task task = true →
      submit st task =
        .ok (task.task_id,
          { st with task_queue := st.task_queue ++ [task] })) ∧
    (∀ mp ex res q q' tasks,
      (executeBatch mp ⟨ex, res, q⟩ tasks).ret =
        (executeBatch mp ⟨ex, res, q'⟩ tasks).ret ∧
      (executeBatch mp ⟨ex, res, q⟩ tasks).st.results =
        (executeBatch mp ⟨ex, res, q'⟩ tasks).st.results ∧
      (executeBatch mp ⟨ex, res, q⟩ tasks).invoked =
        (executeBatch mp ⟨ex, res, q'⟩ tasks).invoked ∧
      (executeBatch mp ⟨ex, res, q⟩ tasks).st.task_queue = q) ∧
    (∀ mp st tasks, 0 < mp → ∀ i ∈ (executeBatch mp st tasks).invoked,
      i ∈ tasks.map (·.task_id)) := by
  refine ⟨?_, ?_, ?_, ?_, ?_⟩
  · intro st task hn
    unfold submit
    rw [hn]
  · intro st task e he hv
    unfold submit
    rw [he]
    simp only
    rw [hv]
    rfl
  · intro st task e he hv
    unfold submit
    rw [he]
    simp only
    rw [hv]
    rfl
  · intro mp ex res q q' tasks
    exact ⟨rfl, rfl, rfl, rfl⟩
  · intro mp st tasks hmp i hi
    unfold executeBatch at hi
    simp only at hi
    rw [runIndependent_spec st.executors mp hmp] at hi
    simp only at hi
    rcases List.mem_append.mp hi with h1 | h2
    · obtain ⟨t, ht, hin⟩ := List.mem_flatMap.mp h1
      rw [invokedIds_sub st.executors t i hin]
      exact List.mem_map_of_mem _ (List.mem_of_mem_filter ht)
    · have := runDependent_invoked_sub st.executors _ _ _ h2
      obtain ⟨t, ht, he⟩ := List.mem_map.mp this
      rw [← he]
      exact List.mem_map_of_mem _ (List.mem_of_mem_filter ht)

def stEmpty : OrchState := { executors := exEmpty, results := [], task_queue := [] }

/-- Witness for C10: rejection paths of `submit`, the accepted enqueue,
and a batch whose single invocation id comes from its list argument. -/
theorem submit_queue_witness :
    submit stEmpty tPlain =
      .error "No executor registered for task type: TaskType.VALIDATION" ∧
    submit stInvalid tIndep =
      .error "Invalid task payload for type: TaskType.VALIDATION" ∧
    submit stOk tPlain =
      .ok ("t", { stOk with task_queue := [tPlain] }) ∧
    "t" ∈ [tPlain].map (·.task_id) := by
  refine ⟨?_, ?_, ?_, ?_⟩
  · exact submit_validates_and_queue_unused_by_batch.1 stEmpty tPlain rfl
  · exact submit_validates_and_queue_unused_by_batch.2.1 stInvalid tIndep
      invalidExec rfl rfl
  · exact submit_validates_and_queue_unused_by_batch.2.2.1 stOk tPlain
      okExec rfl rfl
  · exact submit_validates_and_queue_unused_by_batch.2.2.2.2 8 stOk [tPlain]
      (by decide) "t"
      (by simp [executeBatch, runIndependent, runWave, runDependent,
        indepResult, executeTask, exAll, okExec, stOk, tPlain, depsSatisfied,
        Dict.get?, Dict.insert, invokedIds, pendingDefault, Except.map])
